import Mathlib

/-!
# PID controller with Twiddle gain search

A shallow embedding of `src/PID.h` and `src/PID.cpp`.

Modelling conventions.

* The value of a C++ `double` is a rational (`ℚ`).  The methods are embedded
  twice.  `UpdateError`, `TotalError`, `TwiddleStep` compute in exact
  arithmetic, with the literals `1.1`, `0.9` and `0.1` the rationals `11/10`,
  `9/10` and `1/10`: they carry the statements about branches, frames and
  invariants, and the statements made "in exact arithmetic".
  `Rounded.UpdateError`, `Rounded.TotalError`, `Rounded.TwiddleStep` are the same
  methods with every `double` operation and decimal literal passed through a
  rounding function; with `rnd64` (IEEE-754 binary64, round to nearest, ties to
  even) they compute what the code computes as long as every result is finite,
  and with `id` they are the exact definitions.
* A division whose divisor is zero does not produce a finite number
  (IEEE-754 gives an infinity or a NaN); `fdiv` returns `none` there.
* The counter `n` is a 32-bit `int`: `n += 1` wraps around at `INT_MAX`
  (`wrapInt`).  The caller in `main.cpp` ends an episode long before that.
  The `int` fields `t_index` and `t_state` are plain integers; the code keeps
  them among 0, 1, 2.
* `p` and `dp` are `std::vector<double>`: lists, indexed by an `int`.  An
  access outside the vector is undefined behaviour in C++; the operations
  that index a vector return `none` there.
* Console output (`cout`) is not part of the state and is left out.
-/

namespace PIDControl

/-! ## Constants of `PID.h` -/

/-- The constant `PID_STARTUP`. -/
def PID_STARTUP : Int := 300

/-- The constant `T_UP`. -/
def T_UP : Int := 1

/-- The constant `T_DOWN`. -/
def T_DOWN : Int := 2

/-- The constant `T_INIT`. -/
def T_INIT : Int := 0

/-- The constant `MIN_RESOLUTION`, the literal `0.1`. -/
def MIN_RESOLUTION : ℚ := 1 / 10

/-! ## The type `int` -/

/-- The largest value of a 32-bit `int`. -/
def INT_MAX : Int := 2147483647

/-- The value a 32-bit two's-complement `int` holds when the mathematical
result of an operation is `x`: `x` itself inside `[-2^31, 2^31 - 1]`, wrapped
around modulo `2^32` outside. -/
def wrapInt (x : Int) : Int :=
  (x + 2147483648) % 4294967296 - 2147483648

/-! ## The class `PID` -/

/-- The data members of `class PID`, in the order of `PID.h`. -/
structure PID where
  p_error : ℚ
  i_error : ℚ
  d_error : ℚ
  n : Int
  err : ℚ
  p : List ℚ
  dp : List ℚ
  best_err : ℚ
  t_index : Int
  t_state : Int
  Kp : ℚ
  Ki : ℚ
  Kd : ℚ
deriving DecidableEq

/-- The state left by the constructor `PID::PID()`: the vectors `p` and `dp`
are default-constructed, hence empty. -/
def PID.construct : PID :=
  { Kp := 0, p_error := 0, Ki := 0, i_error := 0, Kd := 0, d_error := 0,
    n := 0, best_err := -1, t_state := T_UP, t_index := 0, err := 0,
    p := [], dp := [] }

/-! ## Vector access -/

/-- Read `v[i]` for an `int` index; `none` outside the vector. -/
def vecGet (v : List ℚ) (i : Int) : Option ℚ :=
  if 0 ≤ i then v[i.toNat]? else none

/-- Write `v[i] = x` for an `int` index; `none` outside the vector. -/
def vecSet (v : List ℚ) (i : Int) (x : ℚ) : Option (List ℚ) :=
  if 0 ≤ i ∧ i.toNat < v.length then some (v.set i.toNat x) else none

/-- The compound assignment `p[i] = f (p[i])` (`p[i] += x`, `p[i] -= x`). -/
def modP (s : PID) (i : Int) (f : ℚ → ℚ) : Option PID :=
  match vecGet s.p i with
  | none => none
  | some v =>
    match vecSet s.p i (f v) with
    | none => none
    | some p1 => some { s with p := p1 }

/-- The compound assignment `dp[i] = f (dp[i])` (`dp[i] *= c`). -/
def modDp (s : PID) (i : Int) (f : ℚ → ℚ) : Option PID :=
  match vecGet s.dp i with
  | none => none
  | some v =>
    match vecSet s.dp i (f v) with
    | none => none
    | some d1 => some { s with dp := d1 }

/-- Division of two doubles: a finite result needs a non-zero divisor. -/
def fdiv (x d : ℚ) : Option ℚ :=
  if d = 0 then none else some (x / d)

/-! ## Controller -/

/-- `PID::Init(Kp, Ki, Kd)`. -/
def Init (s : PID) (Kp Ki Kd : ℚ) : PID :=
  { s with p_error := 0, i_error := 0, d_error := 0, n := 0, err := 0,
           Kp := Kp, Ki := Ki, Kd := Kd }

/-- `PID::Guess()`: the returned value, paired with the object after the call
(the method is not `const`). -/
def Guess (s : PID) : ℚ × PID :=
  (-s.Kp * s.p_error - s.Kd * s.d_error - s.Ki * s.i_error, s)

/-- `PID::UpdateError(cte)`, in exact arithmetic.  The counter `n` is an `int`:
`n += 1` wraps around at `INT_MAX`.  The call of `Guess()` inside the output
statement is kept: the object continues from the state `Guess` leaves. -/
def UpdateError (s : PID) (cte : ℚ) : PID :=
  let s1 := { s with d_error := cte - s.p_error }
  let s2 := { s1 with p_error := cte }
  let s3 := { s2 with i_error := s2.i_error + cte }
  let s4 := { s3 with n := wrapInt (s3.n + 1) }
  let s5 := (Guess s4).2
  if s5.n > PID_STARTUP then { s5 with err := s5.err + cte * cte } else s5

/-- `PID::TotalError()`, in exact arithmetic. -/
def TotalError (s : PID) : Option ℚ :=
  if s.n < PID_STARTUP then some 0
  else fdiv s.err ((s.n - PID_STARTUP : Int) : ℚ)

/-- A run of `UpdateError` calls, one per sample, in order. -/
def feed (s : PID) (samples : List ℚ) : PID :=
  samples.foldl UpdateError s

/-! ## Twiddle -/

/-- `PID::TwiddleUpdate()`.  The output statements of lines 111-112 read
`p[0]`, `p[1]`, `p[2]` and `dp[0]`, `dp[1]`, `dp[2]`; the reads are kept, the
output is not. -/
def TwiddleUpdate (s : PID) : Option PID :=
  match vecGet s.p 0, vecGet s.p 1, vecGet s.p 2,
        vecGet s.dp 0, vecGet s.dp 1, vecGet s.dp 2 with
  | some a, some b, some c, some _, some _, some _ =>
    some { s with Kp := a, Kd := b, Ki := c, n := 0, err := 0,
                  p_error := 0, i_error := 0, d_error := 0 }
  | _, _, _, _, _, _ => none

/-- `PID::TwiddleInit()`. -/
def TwiddleInit (s : PID) : Option PID :=
  TwiddleUpdate { s with p := [0, 0, 0], dp := [1, 1, 1], t_index := 0,
                         t_state := T_UP, best_err := -1 }

/-- Lines 134-168 of `PID::TwiddleStep`, in exact arithmetic: the trial on the
active index.  Returns the state and the value of the local `advance`. -/
def TwiddleStep.trial (s : PID) (run_err : ℚ) : Option (PID × Bool) :=
  match vecGet s.dp s.t_index with
  | none => none
  | some d =>
    if d = 0 then some (s, true)
    else if s.best_err = -1 then
      -- first time thru
      (modP { s with best_err := run_err, t_state := T_UP } s.t_index (· + d)).map
        (fun s1 => (s1, false))
    else if run_err < s.best_err ∧ s.n > PID_STARTUP then
      -- new best score
      match modDp { s with best_err := run_err } s.t_index (· * (11 / 10)) with
      | none => none
      | some s1 =>
        match vecGet s1.dp s1.t_index with
        | none => none
        | some d1 =>
          if |d1| < MIN_RESOLUTION then some (s1, true)
          else
            (modP s1 s1.t_index (· + (if s1.t_state = T_UP then 1 else -1) * d1)).map
              (fun s2 => (s2, false))
    else if s.t_state = T_UP then
      -- we were up, no joy, so try down
      (modP s s.t_index (· - 2 * d)).map
        (fun s1 => ({ s1 with t_state := T_DOWN }, false))
    else if s.t_state = T_DOWN then
      -- we were down, no joy: restore and refine
      match modP s s.t_index (· + d) with
      | none => none
      | some s1 =>
        match modDp s1 s1.t_index (· * (9 / 10)) with
        | none => none
        | some s2 =>
          match vecGet s2.dp s2.t_index with
          | none => none
          | some d2 =>
            if |d2| < MIN_RESOLUTION then some (s2, true)
            else
              (modP { s2 with t_state := T_UP } s2.t_index (· + d2)).map
                (fun s3 => (s3, false))
    else some (s, false)

/-- Lines 169-175 of `PID::TwiddleStep`: shift to the next parameter. -/
def TwiddleStep.next (s : PID) : Option PID :=
  let s1 := { s with t_index := Int.tmod (s.t_index + 1) 3 }
  match vecGet s1.dp s1.t_index with
  | none => none
  | some d => (modP s1 s1.t_index (· + d)).map (fun s2 => { s2 with t_state := T_UP })

/-- `PID::TwiddleStep(run_err)`. -/
def TwiddleStep (s : PID) (run_err : ℚ) : Option PID :=
  match TwiddleStep.trial s run_err with
  | none => none
  | some (s1, advance) => if advance then TwiddleStep.next s1 else some s1

/-! ## Predicates used in the statements -/

/-- A tuner state as the data model describes it: three gains, three steps and
an active index among 0, 1, 2. -/
def WellFormed (s : PID) : Prop :=
  s.p.length = 3 ∧ s.dp.length = 3 ∧ 0 ≤ s.t_index ∧ s.t_index < 3

/-- The test of line 142: the score is accepted as an improvement. -/
def Improves (s : PID) (run_err : ℚ) : Prop :=
  run_err < s.best_err ∧ s.n > PID_STARTUP

/-- Two objects agree on the Twiddle members `p`, `dp`, `best_err`, `t_index`
and `t_state` (the controller members may differ). -/
def SameTuner (a b : PID) : Prop :=
  a.p = b.p ∧ a.dp = b.dp ∧ a.best_err = b.best_err ∧ a.t_index = b.t_index ∧
    a.t_state = b.t_state

/-- The call `TwiddleStep(run_err)` in state `s` reaches line 169 with
`advance` set and ends in state `t`. -/
def AdvancesTo (s : PID) (run_err : ℚ) (t : PID) : Prop :=
  (∃ m, TwiddleStep.trial s run_err = some (m, true)) ∧ TwiddleStep s run_err = some t

/-- The scenario of the specification after `TwiddleInit`, `TwiddleStep(10.0)`,
`TwiddleUpdate` and an episode of 301 zero samples. -/
def scenarioAfterFirst : PID :=
  { PID.construct with p := [1, 0, 0], dp := [1, 1, 1], best_err := 10,
                       t_index := 0, t_state := T_UP, Kp := 1, n := 301 }

/-- The scenario continued by `TwiddleStep(8.0)`. -/
def scenarioAfterSecond : PID :=
  { PID.construct with p := [21 / 10, 0, 0], dp := [11 / 10, 1, 1], best_err := 8,
                       t_index := 0, t_state := T_UP, Kp := 1, n := 301 }

/-- A tuner state whose three steps are zero, with active index `i`, gains
5, 6, 7 and best score 4. -/
def frozenAt (i : Int) : PID :=
  { PID.construct with p := [5, 6, 7], dp := [0, 0, 0], best_err := 4, t_index := i }

/-- The scenario state `scenarioAfterSecond` with an episode cut short after
5 samples. -/
def shortEpisode : PID :=
  { scenarioAfterSecond with n := 5 }

/-- Line 94 of `main.cpp`: the throttle command computed from the throttle
controller `pid_throttle`; the literal `-0.2` is `-(2/10)`. -/
def throttle (pid_throttle : PID) : ℚ :=
  -(2 / 10) + (max (-1) (min 1 (Guess pid_throttle).1) + 1) / 2

/-- A controller state whose `Guess()` is `g`: `Kp = -1`, `p_error = g`, the
other gains and error terms zero. -/
def guessing (g : ℚ) : PID :=
  { PID.construct with Kp := -1, p_error := g }

/-- The tuner-state predicate of the data model: a well-formed state (three
gains, three steps, `t_index` among 0, 1, 2) whose `t_state` is `T_UP` or
`T_DOWN` and whose steps are all non-negative. -/
def TunerInv (s : PID) : Prop :=
  WellFormed s ∧ (s.t_state = T_UP ∨ s.t_state = T_DOWN) ∧ ∀ x ∈ s.dp, 0 ≤ x

/-- A call of one of the state-changing methods by the caller. -/
inductive Call where
  | updateError (cte : ℚ)
  | init (Kp Ki Kd : ℚ)
  | twiddleUpdate
  | twiddleStep (run_err : ℚ)

/-- The effect of one call on the object. -/
def Call.exec (s : PID) : Call → Option PID
  | .updateError cte => some (UpdateError s cte)
  | .init Kp Ki Kd => some (Init s Kp Ki Kd)
  | .twiddleUpdate => TwiddleUpdate s
  | .twiddleStep run_err => TwiddleStep s run_err

/-- A sequence of calls, in order; `none` as soon as one call is undefined. -/
def runCalls (s : PID) : List Call → Option PID
  | [] => some s
  | c :: cs =>
    match c.exec s with
    | none => none
    | some t => runCalls t cs

/-! ## Double arithmetic

The definitions above compute in exact arithmetic.  The definitions of this
section are the same methods with the result of every `double` operation passed
through a rounding function `rnd`; with `rnd64` they compute what the code
computes in IEEE-754 binary64, with `id` they are the exact definitions. -/

/-- The integer nearest to `y`; halfway between two integers, the even one. -/
def roundEven (y : ℚ) : Int :=
  if y - ⌊y⌋ < 1 / 2 then ⌊y⌋
  else if 1 / 2 < y - ⌊y⌋ then ⌊y⌋ + 1
  else if ⌊y⌋ % 2 = 0 then ⌊y⌋ else ⌊y⌋ + 1

/-- Binary64 rounding of a positive rational, to nearest, ties to even: 53
significant bits in the binade `[2^e, 2^(e+1))` of `x`, and the fixed spacing
`2^(-1074)` below `2^(-1022)` (subnormal doubles).  Overflow is not
represented: the result is the double the code computes as long as that double
is finite. -/
def roundPos (x : ℚ) : ℚ :=
  (roundEven (x / 2 ^ (max (Int.log 2 x) (-1022) - 52)) : ℚ) *
    2 ^ (max (Int.log 2 x) (-1022) - 52)

/-- Binary64 rounding of a rational (the sign of a zero is not represented). -/
def rnd64 (x : ℚ) : ℚ :=
  if x = 0 then 0 else if 0 < x then roundPos x else -roundPos (-x)

/-- `PID::UpdateError(cte)` in double arithmetic: lines 59, 61 and 67 round. -/
def Rounded.UpdateError (rnd : ℚ → ℚ) (s : PID) (cte : ℚ) : PID :=
  let s1 := { s with d_error := rnd (cte - s.p_error) }
  let s2 := { s1 with p_error := cte }
  let s3 := { s2 with i_error := rnd (s2.i_error + cte) }
  let s4 := { s3 with n := wrapInt (s3.n + 1) }
  let s5 := (Guess s4).2
  if s5.n > PID_STARTUP then { s5 with err := rnd (s5.err + rnd (cte * cte)) } else s5

/-- `PID::TotalError()` in double arithmetic: the quotient of line 76 rounds. -/
def Rounded.TotalError (rnd : ℚ → ℚ) (s : PID) : Option ℚ :=
  if s.n < PID_STARTUP then some 0
  else (fdiv s.err ((s.n - PID_STARTUP : Int) : ℚ)).map rnd

/-- A run of `UpdateError` calls in double arithmetic. -/
def Rounded.feed (rnd : ℚ → ℚ) (s : PID) (samples : List ℚ) : PID :=
  samples.foldl (Rounded.UpdateError rnd) s

/-- Lines 134-168 of `PID::TwiddleStep` in double arithmetic: the literals
`1.1`, `0.9` and `MIN_RESOLUTION` are rounded decimals, and every sum,
difference and product rounds. -/
def Rounded.TwiddleStep.trial (rnd : ℚ → ℚ) (s : PID) (run_err : ℚ) :
    Option (PID × Bool) :=
  match vecGet s.dp s.t_index with
  | none => none
  | some d =>
    if d = 0 then some (s, true)
    else if s.best_err = -1 then
      (modP { s with best_err := run_err, t_state := T_UP } s.t_index
        (fun x => rnd (x + d))).map (fun s1 => (s1, false))
    else if run_err < s.best_err ∧ s.n > PID_STARTUP then
      match modDp { s with best_err := run_err } s.t_index
          (fun x => rnd (x * rnd (11 / 10))) with
      | none => none
      | some s1 =>
        match vecGet s1.dp s1.t_index with
        | none => none
        | some d1 =>
          if |d1| < rnd MIN_RESOLUTION then some (s1, true)
          else
            (modP s1 s1.t_index
              (fun x => rnd (x + rnd ((if s1.t_state = T_UP then 1 else -1) * d1)))).map
              (fun s2 => (s2, false))
    else if s.t_state = T_UP then
      (modP s s.t_index (fun x => rnd (x - rnd (2 * d)))).map
        (fun s1 => ({ s1 with t_state := T_DOWN }, false))
    else if s.t_state = T_DOWN then
      match modP s s.t_index (fun x => rnd (x + d)) with
      | none => none
      | some s1 =>
        match modDp s1 s1.t_index (fun x => rnd (x * rnd (9 / 10))) with
        | none => none
        | some s2 =>
          match vecGet s2.dp s2.t_index with
          | none => none
          | some d2 =>
            if |d2| < rnd MIN_RESOLUTION then some (s2, true)
            else
              (modP { s2 with t_state := T_UP } s2.t_index (fun x => rnd (x + d2))).map
                (fun s3 => (s3, false))
    else some (s, false)

/-- Lines 169-175 of `PID::TwiddleStep` in double arithmetic. -/
def Rounded.TwiddleStep.next (rnd : ℚ → ℚ) (s : PID) : Option PID :=
  let s1 := { s with t_index := Int.tmod (s.t_index + 1) 3 }
  match vecGet s1.dp s1.t_index with
  | none => none
  | some d =>
    (modP s1 s1.t_index (fun x => rnd (x + d))).map (fun s2 => { s2 with t_state := T_UP })

/-- `PID::TwiddleStep(run_err)` in double arithmetic. -/
def Rounded.TwiddleStep (rnd : ℚ → ℚ) (s : PID) (run_err : ℚ) : Option PID :=
  match Rounded.TwiddleStep.trial rnd s run_err with
  | none => none
  | some (s1, advance) => if advance then Rounded.TwiddleStep.next rnd s1 else some s1

theorem feed_nil (s : PID) : feed s [] = s := rfl

theorem feed_cons (s : PID) (x : ℚ) (xs : List ℚ) :
    feed s (x :: xs) = feed (UpdateError s x) xs := rfl

theorem wrapInt_of_range {x : Int} (h1 : -2147483648 ≤ x) (h2 : x ≤ INT_MAX) :
    wrapInt x = x := by
  unfold wrapInt
  unfold INT_MAX at h2
  omega

theorem UpdateError_n (s : PID) (x : ℚ) : (UpdateError s x).n = wrapInt (s.n + 1) := by
  unfold UpdateError Guess
  dsimp only
  split <;> rfl

/-- Below `INT_MAX` the counter goes up by one. -/
theorem UpdateError_n_of_lt {s : PID} (x : ℚ) (h0 : 0 ≤ s.n) (h : s.n < INT_MAX) :
    (UpdateError s x).n = s.n + 1 := by
  rw [UpdateError_n, wrapInt_of_range (by omega) (by omega)]

theorem UpdateError_err (s : PID) (x : ℚ) :
    (UpdateError s x).err =
      if wrapInt (s.n + 1) > PID_STARTUP then s.err + x * x else s.err := by
  unfold UpdateError Guess
  dsimp only
  split <;> rfl

/-- As long as the counter stays within `INT_MAX` it counts the samples. -/
theorem feed_n (xs : List ℚ) :
    ∀ s : PID, 0 ≤ s.n → s.n + (xs.length : Int) ≤ INT_MAX →
      (feed s xs).n = s.n + (xs.length : Int) := by
  induction xs with
  | nil => intro s _ _; simp [feed_nil]
  | cons x xs ih =>
    intro s h0 h
    simp only [List.length_cons] at h ⊢
    push_cast at h ⊢
    have hx : (0 : Int) ≤ (xs.length : Int) := Int.ofNat_nonneg _
    have hn : (UpdateError s x).n = s.n + 1 := UpdateError_n_of_lt x h0 (by omega)
    rw [feed_cons, ih _ (by omega) (by omega), hn]
    ring

theorem INT_MAX_gt_startup : PID_STARTUP < INT_MAX := by decide

theorem Init_n (s : PID) (Kp Ki Kd : ℚ) : (Init s Kp Ki Kd).n = 0 := rfl

/-- Before the counter reaches `PID_STARTUP` the guard of `TotalError` fires. -/
theorem TotalError_before_startup (s : PID) (xs : List ℚ) (h0 : s.n = 0)
    (hlen : (xs.length : Int) < PID_STARTUP) : TotalError (feed s xs) = some 0 := by
  have hmax := INT_MAX_gt_startup
  unfold TotalError
  rw [feed_n xs s (by omega) (by omega), h0, if_pos (by omega)]

/-- With the counter exactly at `PID_STARTUP` the guard does not fire and the
divisor is zero. -/
theorem TotalError_at_startup (s : PID) (xs : List ℚ) (h0 : s.n = 0)
    (hlen : (xs.length : Int) = PID_STARTUP) : TotalError (feed s xs) = none := by
  have hmax := INT_MAX_gt_startup
  unfold TotalError
  rw [feed_n xs s (by omega) (by omega), h0, if_neg (by omega)]
  simp [fdiv, hlen]

/-- A list of `PID_STARTUP` equal samples. -/
theorem replicate_startup_length (x : ℚ) :
    ((List.replicate 300 x).length : Int) = PID_STARTUP := by
  rw [List.length_replicate]; rfl

/-- After `PID_STARTUP` equal samples from a fresh episode the counter is at
`PID_STARTUP`. -/
theorem feed_replicate_startup_n (s : PID) (x : ℚ) (h0 : s.n = 0) :
    (feed s (List.replicate 300 x)).n = PID_STARTUP := by
  have hmax := INT_MAX_gt_startup
  have hlen := replicate_startup_length x
  rw [feed_n _ s (by omega) (by omega), h0, hlen, zero_add]

/-! ## The controller claims -/

/-- C3, at the input where the code departs from it: after `Init` and exactly
`PID_STARTUP` samples (here all zero) the guard `n < PID_STARTUP` of `TotalError`
is false and the division `err / (n - PID_STARTUP)` has divisor zero, so the
call does not return `0`. -/
theorem totalError_at_startup_undefined :
    (feed (Init PID.construct 0 0 0) (List.replicate 300 0)).n = PID_STARTUP ∧
    TotalError (feed (Init PID.construct 0 0 0) (List.replicate 300 0)) = none ∧
    TotalError (feed (Init PID.construct 0 0 0) (List.replicate 300 0)) ≠ some 0 := by
  have h : TotalError (feed (Init PID.construct 0 0 0) (List.replicate 300 0)) = none :=
    TotalError_at_startup _ _ (Init_n _ _ _ _) (replicate_startup_length 0)
  refine ⟨feed_replicate_startup_n _ 0 (Init_n _ _ _ _), h, ?_⟩
  rw [h]; simp

/-- C4: `Guess` returns `-(Kp*p_error + Kd*d_error + Ki*i_error)`, the object is
the same after the call, and no range bounds the result: every value is the
`Guess` of some state. -/
theorem guess_value_pure_unclamped :
    (∀ s : PID, (Guess s).1 = -(s.Kp * s.p_error + s.Kd * s.d_error + s.Ki * s.i_error) ∧
      (Guess s).2 = s) ∧
    (∀ r : ℚ, ∃ s : PID, (Guess s).1 = r) := by
  refine ⟨fun s => ⟨?_, rfl⟩, fun r => ⟨{ PID.construct with Kp := -1, p_error := r }, ?_⟩⟩
  · simp only [Guess]; ring
  · simp [Guess, PID.construct]

/-! ## Facts about vector access -/

theorem vecGet_inRange {v : List ℚ} {i : Int} {x : ℚ} (h : vecGet v i = some x) :
    0 ≤ i ∧ i.toNat < v.length := by
  unfold vecGet at h
  split at h
  · rename_i hi
    exact ⟨hi, (List.getElem?_eq_some_iff.mp h).1⟩
  · cases h

theorem vecSet_eq {v : List ℚ} {i : Int} {x : ℚ} (h : vecGet v i = some x) (y : ℚ) :
    vecSet v i y = some (v.set i.toNat y) := by
  unfold vecSet
  rw [if_pos (vecGet_inRange h)]

theorem vecGet_set_self {v : List ℚ} {i : Int} {x : ℚ} (h : vecGet v i = some x) (y : ℚ) :
    vecGet (v.set i.toNat y) i = some y := by
  obtain ⟨hi, hlt⟩ := vecGet_inRange h
  unfold vecGet
  rw [if_pos hi]
  simp [hlt]

theorem vecGet_set_ne {v : List ℚ} {i j : Int} (hi : 0 ≤ i) (hne : j ≠ i) (y : ℚ) :
    vecGet (v.set i.toNat y) j = vecGet v j := by
  unfold vecGet
  split
  · rename_i hj
    have : i.toNat ≠ j.toNat := by omega
    simp [List.getElem?_set_ne this]
  · rfl

theorem vecGet_of_length {v : List ℚ} (hlen : v.length = 3) {i : Int} (h0 : 0 ≤ i)
    (h3 : i < 3) : ∃ x, vecGet v i = some x := by
  unfold vecGet
  rw [if_pos h0]
  have : i.toNat < v.length := by omega
  exact ⟨v[i.toNat], List.getElem?_eq_getElem this⟩

theorem modP_eq {s : PID} {i : Int} {x : ℚ} (h : vecGet s.p i = some x) (f : ℚ → ℚ) :
    modP s i f = some { s with p := s.p.set i.toNat (f x) } := by
  unfold modP
  rw [h]
  dsimp only
  rw [vecSet_eq h]

theorem modDp_eq {s : PID} {i : Int} {x : ℚ} (h : vecGet s.dp i = some x) (f : ℚ → ℚ) :
    modDp s i f = some { s with dp := s.dp.set i.toNat (f x) } := by
  unfold modDp
  rw [h]
  dsimp only
  rw [vecSet_eq h]

/-! ## The branches of `TwiddleStep` -/

/-- The active step is zero: nothing is evaluated, `advance` is set. -/
theorem trial_frozen {s : PID} (r : ℚ) (hd : vecGet s.dp s.t_index = some 0) :
    TwiddleStep.trial s r = some (s, true) := by
  unfold TwiddleStep.trial
  rw [hd]
  simp

/-- First time through (`best_err == -1`). -/
theorem trial_first {s : PID} (r : ℚ) {d v : ℚ} (hd : vecGet s.dp s.t_index = some d)
    (hd0 : d ≠ 0) (hb : s.best_err = -1) (hv : vecGet s.p s.t_index = some v) :
    TwiddleStep.trial s r =
      some ({ s with best_err := r, t_state := T_UP,
                     p := s.p.set s.t_index.toNat (v + d) }, false) := by
  unfold TwiddleStep.trial
  rw [hd]
  dsimp only
  rw [if_neg hd0, if_pos hb]
  have h := modP_eq (s := { s with best_err := r, t_state := T_UP }) (i := s.t_index) hv
    (· + d)
  rw [h]
  rfl

/-- New best score (line 142). -/
theorem trial_improve {s : PID} {r : ℚ} {d v : ℚ} (hd : vecGet s.dp s.t_index = some d)
    (hd0 : d ≠ 0) (hb : s.best_err ≠ -1) (himp : Improves s r)
    (hv : vecGet s.p s.t_index = some v) :
    TwiddleStep.trial s r =
      if |d * (11 / 10)| < MIN_RESOLUTION then
        some ({ s with best_err := r,
                       dp := s.dp.set s.t_index.toNat (d * (11 / 10)) }, true)
      else
        some ({ s with best_err := r,
                       dp := s.dp.set s.t_index.toNat (d * (11 / 10)),
                       p := s.p.set s.t_index.toNat
                         (v + (if s.t_state = T_UP then 1 else -1) * (d * (11 / 10))) },
              false) := by
  unfold TwiddleStep.trial
  rw [hd]
  dsimp only
  rw [if_neg hd0, if_neg hb, if_pos (show r < s.best_err ∧ s.n > PID_STARTUP from himp)]
  have h1 := modDp_eq (s := { s with best_err := r }) (i := s.t_index) hd (· * (11 / 10))
  rw [h1]
  dsimp only
  rw [vecGet_set_self hd]
  dsimp only
  split
  · rfl
  · have h2 := modP_eq
      (s := { s with best_err := r, dp := s.dp.set s.t_index.toNat (d * (11 / 10)) })
      (i := s.t_index) hv (· + (if s.t_state = T_UP then 1 else -1) * (d * (11 / 10)))
    rw [h2]
    rfl

/-- No improvement while going up (line 152). -/
theorem trial_up {s : PID} {r : ℚ} {d v : ℚ} (hd : vecGet s.dp s.t_index = some d)
    (hd0 : d ≠ 0) (hb : s.best_err ≠ -1) (hnot : ¬ Improves s r) (hup : s.t_state = T_UP)
    (hv : vecGet s.p s.t_index = some v) :
    TwiddleStep.trial s r =
      some ({ s with p := s.p.set s.t_index.toNat (v - 2 * d), t_state := T_DOWN },
            false) := by
  unfold TwiddleStep.trial
  rw [hd]
  dsimp only
  rw [if_neg hd0, if_neg hb, if_neg (show ¬ (r < s.best_err ∧ s.n > PID_STARTUP) from hnot), if_pos hup, modP_eq hv]
  rfl

/-- No improvement while going down (line 157). -/
theorem trial_down {s : PID} {r : ℚ} {d v : ℚ} (hd : vecGet s.dp s.t_index = some d)
    (hd0 : d ≠ 0) (hb : s.best_err ≠ -1) (hnot : ¬ Improves s r)
    (hdown : s.t_state = T_DOWN) (hv : vecGet s.p s.t_index = some v) :
    TwiddleStep.trial s r =
      if |d * (9 / 10)| < MIN_RESOLUTION then
        some ({ s with p := s.p.set s.t_index.toNat (v + d),
                       dp := s.dp.set s.t_index.toNat (d * (9 / 10)) }, true)
      else
        some ({ s with p := (s.p.set s.t_index.toNat (v + d)).set s.t_index.toNat
                         (v + d + d * (9 / 10)),
                       dp := s.dp.set s.t_index.toNat (d * (9 / 10)),
                       t_state := T_UP }, false) := by
  have hup : ¬ s.t_state = T_UP := by rw [hdown]; decide
  unfold TwiddleStep.trial
  rw [hd]
  dsimp only
  rw [if_neg hd0, if_neg hb, if_neg (show ¬ (r < s.best_err ∧ s.n > PID_STARTUP) from hnot), if_neg hup, if_pos hdown, modP_eq hv]
  dsimp only
  have h1 := modDp_eq (s := { s with p := s.p.set s.t_index.toNat (v + d) })
    (i := s.t_index) hd (· * (9 / 10))
  rw [h1]
  dsimp only
  rw [vecGet_set_self hd]
  dsimp only
  split
  · rfl
  · have h2 := modP_eq
      (s := { s with p := s.p.set s.t_index.toNat (v + d),
                     dp := s.dp.set s.t_index.toNat (d * (9 / 10)),
                     t_state := T_UP })
      (i := s.t_index) (vecGet_set_self hv (v + d)) (· + d * (9 / 10))
    rw [h2]
    rfl

/-- The shift to the next parameter (lines 169-175). -/
theorem next_eq {s : PID} {g e : ℚ}
    (hg : vecGet s.p (Int.tmod (s.t_index + 1) 3) = some g)
    (he : vecGet s.dp (Int.tmod (s.t_index + 1) 3) = some e) :
    TwiddleStep.next s =
      some { s with t_index := Int.tmod (s.t_index + 1) 3,
                    p := s.p.set (Int.tmod (s.t_index + 1) 3).toNat (g + e),
                    t_state := T_UP } := by
  unfold TwiddleStep.next
  dsimp only
  rw [he]
  dsimp only
  have h := modP_eq (s := { s with t_index := Int.tmod (s.t_index + 1) 3 })
    (i := Int.tmod (s.t_index + 1) 3) hg (· + e)
  rw [h]
  rfl

/-- For an index among 0, 1, 2 the C++ remainder is the mathematical one, and
the next index is again among 0, 1, 2 and differs from the current one. -/
theorem next_index {i : Int} (h0 : 0 ≤ i) (h3 : i < 3) :
    Int.tmod (i + 1) 3 = (i + 1) % 3 ∧ 0 ≤ (i + 1) % 3 ∧ (i + 1) % 3 < 3 ∧
      (i + 1) % 3 ≠ i := by
  have h : i = 0 ∨ i = 1 ∨ i = 2 := by omega
  rcases h with rfl | rfl | rfl <;> decide

/-- The two halves of `TwiddleStep`. -/
theorem TwiddleStep_of_trial {s : PID} {r : ℚ} {m : PID} {b : Bool}
    (h : TwiddleStep.trial s r = some (m, b)) :
    TwiddleStep s r = if b = true then TwiddleStep.next m else some m := by
  unfold TwiddleStep
  rw [h]

theorem TwiddleStep_stay {s : PID} {r : ℚ} {m : PID}
    (h : TwiddleStep.trial s r = some (m, false)) : TwiddleStep s r = some m := by
  rw [TwiddleStep_of_trial h]
  rfl

theorem TwiddleStep_advance {s : PID} {r : ℚ} {m : PID}
    (h : TwiddleStep.trial s r = some (m, true)) :
    TwiddleStep s r = TwiddleStep.next m := by
  rw [TwiddleStep_of_trial h]
  rfl

/-- The state `TwiddleInit` leaves. -/
theorem TwiddleInit_eq (s0 : PID) :
    TwiddleInit s0 =
      some { s0 with p := [0, 0, 0], dp := [1, 1, 1], t_index := 0, t_state := T_UP,
                     best_err := -1, Kp := 0, Kd := 0, Ki := 0, n := 0, err := 0,
                     p_error := 0, i_error := 0, d_error := 0 } := rfl

theorem modP_t_index {s t : PID} {i : Int} {f : ℚ → ℚ} (h : modP s i f = some t) :
    t.t_index = s.t_index := by
  unfold modP at h
  split at h
  · cases h
  · split at h
    · cases h
    · cases h; rfl

theorem modDp_t_index {s t : PID} {i : Int} {f : ℚ → ℚ} (h : modDp s i f = some t) :
    t.t_index = s.t_index := by
  unfold modDp at h
  split at h
  · cases h
  · split at h
    · cases h
    · cases h; rfl

/-- The first half of `TwiddleStep` never changes `t_index`. -/
theorem trial_t_index {s m : PID} {r : ℚ} {b : Bool}
    (h : TwiddleStep.trial s r = some (m, b)) : m.t_index = s.t_index := by
  unfold TwiddleStep.trial at h
  split at h
  · cases h
  · split at h
    · cases h; rfl
    · split at h
      · obtain ⟨a, ha, hab⟩ := Option.map_eq_some'.mp h
        cases hab
        exact (modP_t_index ha).trans rfl
      · split at h
        · split at h
          · cases h
          · rename_i s1 hs1
            have e1 : s1.t_index = s.t_index := (modDp_t_index hs1).trans rfl
            split at h
            · cases h
            · split at h
              · cases h; exact e1
              · obtain ⟨a, ha, hab⟩ := Option.map_eq_some'.mp h
                cases hab
                rw [modP_t_index ha]; exact e1
        · split at h
          · obtain ⟨a, ha, hab⟩ := Option.map_eq_some'.mp h
            cases hab
            exact (modP_t_index ha : a.t_index = s.t_index)
          · split at h
            · split at h
              · cases h
              · rename_i s1 hs1
                have e1 := modP_t_index hs1
                split at h
                · cases h
                · rename_i s2 hs2
                  have e2 := modDp_t_index hs2
                  split at h
                  · cases h
                  · split at h
                    · cases h; rw [e2]; exact e1
                    · obtain ⟨a, ha, hab⟩ := Option.map_eq_some'.mp h
                      cases hab
                      rw [modP_t_index ha]
                      show s2.t_index = s.t_index
                      rw [e2]; exact e1
            · cases h; rfl

/-- The second half of `TwiddleStep` moves `t_index` to `(t_index + 1) % 3`. -/
theorem next_t_index {s t : PID} (h : TwiddleStep.next s = some t) :
    t.t_index = Int.tmod (s.t_index + 1) 3 := by
  unfold TwiddleStep.next at h
  dsimp only at h
  split at h
  · cases h
  · obtain ⟨a, ha, hab⟩ := Option.map_eq_some'.mp h
    cases hab
    exact modP_t_index ha

/-- A call that takes the advance path moves `t_index` to the next index. -/
theorem AdvancesTo.t_index {s t : PID} {r : ℚ} (h : AdvancesTo s r t) :
    t.t_index = Int.tmod (s.t_index + 1) 3 := by
  obtain ⟨⟨m, hm⟩, ht⟩ := h
  rw [TwiddleStep_advance hm] at ht
  rw [next_t_index ht, trial_t_index hm]

/-- The second scenario state is the first one after `TwiddleStep(8.0)`. -/
theorem scenario_second : TwiddleStep scenarioAfterFirst 8 = some scenarioAfterSecond := by
  have hb : scenarioAfterFirst.best_err ≠ -1 := by
    show (10 : ℚ) ≠ -1
    norm_num
  have hlt : (8 : ℚ) < scenarioAfterFirst.best_err := by
    show (8 : ℚ) < 10
    norm_num
  have hn : scenarioAfterFirst.n > PID_STARTUP := by decide
  have h := trial_improve (s := scenarioAfterFirst) (r := 8) (d := 1) (v := 1) rfl
    one_ne_zero hb ⟨hlt, hn⟩ rfl
  rw [if_neg (by norm_num [MIN_RESOLUTION, abs_of_pos])] at h
  rw [TwiddleStep_stay h]
  simp only [scenarioAfterFirst, scenarioAfterSecond, PID.construct, if_true, one_mul]
  norm_num

/-! ## The tuner claims -/

/-- C5: the first `TwiddleStep(score)` after `TwiddleInit` sets `best_err` to
`score` and `p[0]` to `0 + dp[0] = 1`, keeps `t_state` at `T_UP` and `t_index` at
0, and leaves `p[1]`, `p[2]` and all of `dp` as `TwiddleInit` set them. -/
theorem first_twiddleStep_after_init (s0 : PID) (score : ℚ) :
    ∃ s1 s2, TwiddleInit s0 = some s1 ∧ TwiddleStep s1 score = some s2 ∧
      s1.p = [0, 0, 0] ∧ s1.dp = [1, 1, 1] ∧ s1.t_index = 0 ∧
      s2.best_err = score ∧ s2.p = [1, 0, 0] ∧ s2.t_state = T_UP ∧ s2.t_index = 0 ∧
      s2.dp = s1.dp := by
  have key : ∀ s : PID, s.dp = [1, 1, 1] → s.p = [0, 0, 0] → s.t_index = 0 →
      s.best_err = -1 →
      TwiddleStep s score =
        some { s with best_err := score, t_state := T_UP, p := [1, 0, 0] } := by
    intro s hdp hp hi hb
    have hd : vecGet s.dp s.t_index = some 1 := by rw [hdp, hi]; rfl
    have hv : vecGet s.p s.t_index = some 0 := by rw [hp, hi]; rfl
    rw [TwiddleStep_stay (trial_first score hd one_ne_zero hb hv), hp, hi, zero_add]
    rfl
  exact ⟨_, _, TwiddleInit_eq s0, key _ rfl rfl rfl rfl, rfl, rfl, rfl, rfl, rfl, rfl, rfl,
    rfl⟩

/-- C10: starting with `t_index` among 0, 1, 2, three `TwiddleStep` calls that
each take the advance path (the other members may change between the calls)
bring `t_index` back to its starting value; from 0 it visits 1, then 2, then 0. -/
theorem advance_round_robin (a0 b1 a1 b2 a2 b3 : PID) (r1 r2 r3 : ℚ)
    (h0 : 0 ≤ a0.t_index) (h3 : a0.t_index < 3)
    (hA : AdvancesTo a0 r1 b1) (e1 : a1.t_index = b1.t_index)
    (hB : AdvancesTo a1 r2 b2) (e2 : a2.t_index = b2.t_index)
    (hC : AdvancesTo a2 r3 b3) :
    b3.t_index = a0.t_index ∧
      (a0.t_index = 0 → b1.t_index = 1 ∧ b2.t_index = 2 ∧ b3.t_index = 0) := by
  have hb1 := hA.t_index
  have hb2 := hB.t_index
  have hb3 := hC.t_index
  rw [e2] at hb3
  rw [e1] at hb2
  have hi : a0.t_index = 0 ∨ a0.t_index = 1 ∨ a0.t_index = 2 := by omega
  rcases hi with h | h | h
  · rw [h] at hb1
    have c1 : b1.t_index = 1 := hb1.trans (by decide)
    rw [c1] at hb2
    have c2 : b2.t_index = 2 := hb2.trans (by decide)
    rw [c2] at hb3
    have c3 : b3.t_index = 0 := hb3.trans (by decide)
    exact ⟨by rw [c3, h], fun _ => ⟨c1, c2, c3⟩⟩
  · rw [h] at hb1
    have c1 : b1.t_index = 2 := hb1.trans (by decide)
    rw [c1] at hb2
    have c2 : b2.t_index = 0 := hb2.trans (by decide)
    rw [c2] at hb3
    have c3 : b3.t_index = 1 := hb3.trans (by decide)
    exact ⟨by rw [c3, h], fun h0 => absurd (h.symm.trans h0) (by decide)⟩
  · rw [h] at hb1
    have c1 : b1.t_index = 0 := hb1.trans (by decide)
    rw [c1] at hb2
    have c2 : b2.t_index = 1 := hb2.trans (by decide)
    rw [c2] at hb3
    have c3 : b3.t_index = 2 := hb3.trans (by decide)
    exact ⟨by rw [c3, h], fun h0 => absurd (h.symm.trans h0) (by decide)⟩

/-- With all steps zero a `TwiddleStep` only moves the active index. -/
theorem frozenAt_step (r : ℚ) :
    AdvancesTo (frozenAt 0) r (frozenAt 1) ∧ AdvancesTo (frozenAt 1) r (frozenAt 2) ∧
      AdvancesTo (frozenAt 2) r (frozenAt 0) := by
  have t0 := trial_frozen (s := frozenAt 0) r rfl
  have t1 := trial_frozen (s := frozenAt 1) r rfl
  have t2 := trial_frozen (s := frozenAt 2) r rfl
  refine ⟨⟨⟨_, t0⟩, ?_⟩, ⟨⟨_, t1⟩, ?_⟩, ⟨⟨_, t2⟩, ?_⟩⟩
  · rw [TwiddleStep_advance t0, next_eq (s := frozenAt 0) (g := 6) (e := 0) rfl rfl]
    simp only [frozenAt, PID.construct, add_zero]
    rfl
  · rw [TwiddleStep_advance t1, next_eq (s := frozenAt 1) (g := 7) (e := 0) rfl rfl]
    simp only [frozenAt, PID.construct, add_zero]
    rfl
  · rw [TwiddleStep_advance t2, next_eq (s := frozenAt 2) (g := 5) (e := 0) rfl rfl]
    simp only [frozenAt, PID.construct, add_zero]
    rfl

/-- Witness of C10: steps `(0, 0, 0)` and three calls with the scores 3, 1, 2. -/
theorem advance_round_robin_witness :
    0 ≤ (frozenAt 0).t_index ∧ (frozenAt 0).t_index < 3 ∧
    AdvancesTo (frozenAt 0) 3 (frozenAt 1) ∧ AdvancesTo (frozenAt 1) 1 (frozenAt 2) ∧
    AdvancesTo (frozenAt 2) 2 (frozenAt 0) ∧
    ((frozenAt 0).t_index = (frozenAt 0).t_index ∧
      ((frozenAt 0).t_index = 0 →
        (frozenAt 1).t_index = 1 ∧ (frozenAt 2).t_index = 2 ∧ (frozenAt 0).t_index = 0)) :=
  ⟨by decide, by decide, (frozenAt_step 3).1, (frozenAt_step 1).2.1, (frozenAt_step 2).2.2,
    advance_round_robin (frozenAt 0) (frozenAt 1) (frozenAt 1) (frozenAt 2) (frozenAt 2)
      (frozenAt 0) 3 1 2 (by decide) (by decide) (frozenAt_step 3).1 rfl
      (frozenAt_step 1).2.1 rfl (frozenAt_step 2).2.2⟩

/-! ## Short episodes -/

/-- An episode that did not run past `PID_STARTUP` never passes the test of
line 142. -/
theorem not_improves_of_short {s : PID} (r : ℚ) (hn : s.n ≤ PID_STARTUP) :
    ¬ Improves s r := by
  intro h
  have := h.2
  omega

/-- One `TwiddleStep` going down without improvement, for a step of any sign. -/
theorem down_step_abs {m : PID} {r d w : ℚ} (hwf : WellFormed m)
    (hdown : m.t_state = T_DOWN) (hb : m.best_err ≠ -1)
    (hd : vecGet m.dp m.t_index = some d) (hd0 : d ≠ 0)
    (hw : vecGet m.p m.t_index = some w) (hnot : ¬ Improves m r) :
    ∃ t, TwiddleStep m r = some t ∧ vecGet t.dp m.t_index = some (d * (9 / 10)) ∧
      t.best_err = m.best_err ∧
      (MIN_RESOLUTION ≤ |d * (9 / 10)| →
        vecGet t.p m.t_index = some (w + d + d * (9 / 10)) ∧ t.t_state = T_UP ∧
          t.t_index = m.t_index) ∧
      (|d * (9 / 10)| < MIN_RESOLUTION →
        vecGet t.p m.t_index = some (w + d) ∧ t.t_index = (m.t_index + 1) % 3) := by
  obtain ⟨hp, hdp, h0, h3⟩ := hwf
  obtain ⟨hmod, hj0, hj3, hjne⟩ := next_index h0 h3
  have htrial := trial_down hd hd0 hb hnot hdown hw
  by_cases hres : |d * (9 / 10)| < MIN_RESOLUTION
  · rw [if_pos hres] at htrial
    obtain ⟨g, hg⟩ := vecGet_of_length
      (v := m.p.set m.t_index.toNat (w + d)) (by simpa using hp) hj0 hj3
    obtain ⟨e, he⟩ := vecGet_of_length
      (v := m.dp.set m.t_index.toNat (d * (9 / 10))) (by simpa using hdp) hj0 hj3
    rw [← hmod] at hg he
    have hnext := next_eq
      (s := { m with p := m.p.set m.t_index.toNat (w + d),
                     dp := m.dp.set m.t_index.toNat (d * (9 / 10)) }) hg he
    have hstep := TwiddleStep_advance htrial
    rw [hnext] at hstep
    refine ⟨_, hstep, vecGet_set_self hd _, rfl, ?_, ?_⟩
    · intro hge
      exact absurd hres (not_lt.mpr hge)
    · intro _
      refine ⟨?_, hmod⟩
      show vecGet ((m.p.set m.t_index.toNat (w + d)).set
        (Int.tmod (m.t_index + 1) 3).toNat (g + e)) m.t_index = some (w + d)
      rw [vecGet_set_ne (by rw [hmod]; exact hj0) (by rw [hmod]; exact fun h => hjne h.symm)]
      exact vecGet_set_self hw _
  · rw [if_neg hres] at htrial
    refine ⟨_, TwiddleStep_stay htrial, vecGet_set_self hd _, rfl, ?_, ?_⟩
    · intro _
      refine ⟨?_, rfl, rfl⟩
      exact vecGet_set_self (vecGet_set_self hw (w + d)) _
    · intro hlt
      exact absurd hlt hres

/-- C11: in a well-formed tuner state with `best_err` set, `dp[t_index] = d ≠ 0`
and `n ≤ PID_STARTUP`, `TwiddleStep` with any score, also one below `best_err`,
leaves `best_err` as it was and does not set the step to `1.1 d`.  Going up it
reverses: `p[t_index]` loses `2 d`, `dp` is unchanged, `t_state` becomes `T_DOWN`.
Going down it restores and shrinks: the step becomes `0.9 d`, and the gain is
`p[t_index] + d + 0.9 d` with a fresh trial going up when `|0.9 d| ≥
MIN_RESOLUTION`, otherwise `p[t_index] + d` with `t_index` moved on. -/
theorem short_episode_not_accepted (s : PID) (r d v : ℚ) (hwf : WellFormed s)
    (hd : vecGet s.dp s.t_index = some d) (hd0 : d ≠ 0)
    (hv : vecGet s.p s.t_index = some v) (hb : s.best_err ≠ -1)
    (hn : s.n ≤ PID_STARTUP) :
    (s.t_state = T_UP →
      ∃ t, TwiddleStep s r = some t ∧ t.best_err = s.best_err ∧
        vecGet t.dp s.t_index ≠ some (d * (11 / 10)) ∧
        vecGet t.p s.t_index = some (v - 2 * d) ∧ t.dp = s.dp ∧ t.t_state = T_DOWN ∧
        t.t_index = s.t_index) ∧
    (s.t_state = T_DOWN →
      ∃ t, TwiddleStep s r = some t ∧ t.best_err = s.best_err ∧
        vecGet t.dp s.t_index ≠ some (d * (11 / 10)) ∧
        vecGet t.dp s.t_index = some (d * (9 / 10)) ∧
        (MIN_RESOLUTION ≤ |d * (9 / 10)| →
          vecGet t.p s.t_index = some (v + d + d * (9 / 10)) ∧ t.t_state = T_UP ∧
            t.t_index = s.t_index) ∧
        (|d * (9 / 10)| < MIN_RESOLUTION →
          vecGet t.p s.t_index = some (v + d) ∧ t.t_index = (s.t_index + 1) % 3)) := by
  have hnot : ¬ Improves s r := not_improves_of_short r hn
  constructor
  · intro hup
    refine ⟨_, TwiddleStep_stay (trial_up hd hd0 hb hnot hup hv), rfl, ?_,
      vecGet_set_self hv _, rfl, rfl, rfl⟩
    show vecGet s.dp s.t_index ≠ some (d * (11 / 10))
    rw [hd]
    intro h
    have h1 : d = d * (11 / 10) := Option.some.inj h
    apply hd0
    linarith
  · intro hdown
    obtain ⟨t, e1, e2, e3, e4, e5⟩ := down_step_abs hwf hdown hb hd hd0 hv hnot
    refine ⟨t, e1, e3, ?_, e2, e4, e5⟩
    rw [e2]
    intro h
    have h1 : d * (9 / 10) = d * (11 / 10) := Option.some.inj h
    apply hd0
    linarith

/-- Witness of C11: the scenario state (`p[0] = 2.1`, `dp[0] = 1.1`, best 8,
going up) after an episode of only 5 samples, with the score 1 below the best. -/
theorem short_episode_not_accepted_witness :
    WellFormed shortEpisode ∧
    vecGet shortEpisode.dp shortEpisode.t_index = some (11 / 10) ∧
    vecGet shortEpisode.p shortEpisode.t_index = some (21 / 10) ∧
    shortEpisode.best_err ≠ -1 ∧ (1 : ℚ) < shortEpisode.best_err ∧
    shortEpisode.n ≤ PID_STARTUP ∧ shortEpisode.t_state = T_UP ∧
    ∃ t, TwiddleStep shortEpisode 1 = some t ∧ t.best_err = shortEpisode.best_err ∧
      vecGet t.dp shortEpisode.t_index ≠ some (11 / 10 * (11 / 10)) ∧
      vecGet t.p shortEpisode.t_index = some (21 / 10 - 2 * (11 / 10)) ∧
      t.dp = shortEpisode.dp ∧ t.t_state = T_DOWN ∧ t.t_index = shortEpisode.t_index := by
  have hwf : WellFormed shortEpisode := ⟨rfl, rfl, by decide, by decide⟩
  have hd : vecGet shortEpisode.dp shortEpisode.t_index = some (11 / 10) := rfl
  have hv : vecGet shortEpisode.p shortEpisode.t_index = some (21 / 10) := rfl
  have hb : shortEpisode.best_err ≠ -1 := by
    show (8 : ℚ) ≠ -1
    norm_num
  have hlt : (1 : ℚ) < shortEpisode.best_err := by
    show (1 : ℚ) < 8
    norm_num
  have hn : shortEpisode.n ≤ PID_STARTUP := by decide
  exact ⟨hwf, hd, hv, hb, hlt, hn, rfl,
    (short_episode_not_accepted shortEpisode 1 (11 / 10) (21 / 10) hwf hd (by norm_num) hv hb
      hn).1 rfl⟩

/-! ## `TwiddleUpdate`, `TwiddleInit` and the episode counters -/

/-- `TwiddleUpdate` on a vector of at least three gains. -/
theorem TwiddleUpdate_eq {s : PID} {a b c x y z : ℚ} (ha : vecGet s.p 0 = some a)
    (hb : vecGet s.p 1 = some b) (hc : vecGet s.p 2 = some c)
    (hx : vecGet s.dp 0 = some x) (hy : vecGet s.dp 1 = some y)
    (hz : vecGet s.dp 2 = some z) :
    TwiddleUpdate s =
      some { s with Kp := a, Kd := b, Ki := c, n := 0, err := 0,
                    p_error := 0, i_error := 0, d_error := 0 } := by
  unfold TwiddleUpdate
  rw [ha, hb, hc, hx, hy, hz]

/-- `TwiddleUpdate` is undefined when `dp` holds fewer than three steps, as on
the state the constructor leaves: line 112 reads `dp[0]`. -/
theorem TwiddleUpdate_short_dp (s : PID) (h : s.dp = []) : TwiddleUpdate s = none := by
  unfold TwiddleUpdate
  rw [h]
  have h0 : vecGet ([] : List ℚ) 0 = none := rfl
  rw [h0]
  split
  · rename_i heq
    cases heq
  · rfl

theorem vecGet_of_le_length {v : List ℚ} {k : Nat} (h : k < v.length) :
    ∃ x, vecGet v (k : Int) = some x := by
  unfold vecGet
  rw [if_pos (Int.ofNat_nonneg k)]
  exact ⟨v[k], by simp [h]⟩

/-- C12: on a state whose vectors `p` and `dp` hold at least three entries each,
`TwiddleUpdate` sets `Kp = p[0]`, `Kd = p[1]`, `Ki = p[2]`, resets `n`, `err`,
`p_error`, `i_error` and `d_error` to 0, and leaves `p`, `dp`, `t_index`,
`t_state` and `best_err` as they were. -/
theorem twiddleUpdate_effect (s : PID) (hlen : 3 ≤ s.p.length) (hdlen : 3 ≤ s.dp.length) :
    ∃ t, TwiddleUpdate s = some t ∧
      vecGet s.p 0 = some t.Kp ∧ vecGet s.p 1 = some t.Kd ∧ vecGet s.p 2 = some t.Ki ∧
      t.n = 0 ∧ t.err = 0 ∧ t.p_error = 0 ∧ t.i_error = 0 ∧ t.d_error = 0 ∧
      t.p = s.p ∧ t.dp = s.dp ∧ t.t_index = s.t_index ∧ t.t_state = s.t_state ∧
      t.best_err = s.best_err := by
  obtain ⟨a, ha⟩ := vecGet_of_le_length (v := s.p) (k := 0) (by omega)
  obtain ⟨b, hb⟩ := vecGet_of_le_length (v := s.p) (k := 1) (by omega)
  obtain ⟨c, hc⟩ := vecGet_of_le_length (v := s.p) (k := 2) (by omega)
  obtain ⟨x, hx⟩ := vecGet_of_le_length (v := s.dp) (k := 0) (by omega)
  obtain ⟨y, hy⟩ := vecGet_of_le_length (v := s.dp) (k := 1) (by omega)
  obtain ⟨z, hz⟩ := vecGet_of_le_length (v := s.dp) (k := 2) (by omega)
  exact ⟨_, TwiddleUpdate_eq ha hb hc hx hy hz, ha, hb, hc, rfl, rfl, rfl, rfl, rfl, rfl,
    rfl, rfl, rfl, rfl⟩

/-- Witness of C12: the scenario state with gains `(2.1, 0, 0)` and steps
`(1.1, 1, 1)`. -/
theorem twiddleUpdate_effect_witness :
    3 ≤ scenarioAfterSecond.p.length ∧ 3 ≤ scenarioAfterSecond.dp.length ∧
    ∃ t, TwiddleUpdate scenarioAfterSecond = some t ∧
      vecGet scenarioAfterSecond.p 0 = some t.Kp ∧
      vecGet scenarioAfterSecond.p 1 = some t.Kd ∧
      vecGet scenarioAfterSecond.p 2 = some t.Ki ∧
      t.n = 0 ∧ t.err = 0 ∧ t.p_error = 0 ∧ t.i_error = 0 ∧ t.d_error = 0 ∧
      t.p = scenarioAfterSecond.p ∧ t.dp = scenarioAfterSecond.dp ∧
      t.t_index = scenarioAfterSecond.t_index ∧ t.t_state = scenarioAfterSecond.t_state ∧
      t.best_err = scenarioAfterSecond.best_err :=
  ⟨by decide, by decide, twiddleUpdate_effect scenarioAfterSecond (by decide) (by decide)⟩

/-- C13: from every prior state `TwiddleInit` succeeds and yields `p = (0,0,0)`,
`dp = (1,1,1)`, `t_index = 0`, `t_state = T_UP`, `best_err = -1` (unset),
`Kp = Ki = Kd = 0`, and `n`, `err`, `p_error`, `i_error`, `d_error` all 0. -/
theorem twiddleInit_state (s0 : PID) :
    ∃ t, TwiddleInit s0 = some t ∧ t.p = [0, 0, 0] ∧ t.dp = [1, 1, 1] ∧ t.t_index = 0 ∧
      t.t_state = T_UP ∧ t.best_err = -1 ∧ t.Kp = 0 ∧ t.Ki = 0 ∧ t.Kd = 0 ∧
      t.n = 0 ∧ t.err = 0 ∧ t.p_error = 0 ∧ t.i_error = 0 ∧ t.d_error = 0 :=
  ⟨_, TwiddleInit_eq s0, rfl, rfl, rfl, rfl, rfl, rfl, rfl, rfl, rfl, rfl, rfl, rfl, rfl⟩

theorem UpdateError_err_le (s : PID) (x : ℚ) : s.err ≤ (UpdateError s x).err := by
  rw [UpdateError_err]
  split
  · have : 0 ≤ x * x := mul_self_nonneg x
    linarith
  · exact le_refl _

theorem feed_err_nonneg (xs : List ℚ) : ∀ s : PID, 0 ≤ s.err → 0 ≤ (feed s xs).err := by
  induction xs with
  | nil => intro s h; exact h
  | cons x xs ih =>
    intro s h
    rw [feed_cons]
    exact ih _ (le_trans h (UpdateError_err_le s x))

/-- An episode starts with `err = 0` and `n = 0`. -/
theorem episode_start {s0 s : PID}
    (hstart : (∃ Kp Ki Kd, s = Init s0 Kp Ki Kd) ∨ TwiddleUpdate s0 = some s) :
    s.err = 0 ∧ s.n = 0 := by
  rcases hstart with ⟨Kp, Ki, Kd, rfl⟩ | h
  · exact ⟨rfl, rfl⟩
  · unfold TwiddleUpdate at h
    split at h
    · cases h; exact ⟨rfl, rfl⟩
    · cases h

/-- C14, as amended: in an episode started by `Init` or `TwiddleUpdate`, after
any samples `xs`, fewer than `INT_MAX` of them, the score `err` is non-negative,
and the next `UpdateError` does not lower `err` and raises `n` by exactly 1; the
statements about `err` hold for any number of samples. -/
theorem episode_counters (s0 s : PID) (xs : List ℚ) (x : ℚ)
    (hstart : (∃ Kp Ki Kd, s = Init s0 Kp Ki Kd) ∨ TwiddleUpdate s0 = some s) :
    0 ≤ (feed s xs).err ∧ 0 ≤ (UpdateError (feed s xs) x).err ∧
      (feed s xs).err ≤ (UpdateError (feed s xs) x).err ∧
      ((xs.length : Int) < INT_MAX →
        (UpdateError (feed s xs) x).n = (feed s xs).n + 1 ∧
        (feed s xs).n = (xs.length : Int)) := by
  have h0 := episode_start hstart
  have h1 : 0 ≤ (feed s xs).err := feed_err_nonneg xs s (le_of_eq h0.1.symm)
  have h2 := UpdateError_err_le (feed s xs) x
  refine ⟨h1, le_trans h1 h2, h2, ?_⟩
  intro hlen
  have hn : (feed s xs).n = (xs.length : Int) := by
    rw [feed_n xs s (by omega) (by omega), h0.2, zero_add]
  refine ⟨?_, hn⟩
  exact UpdateError_n_of_lt x (by rw [hn]; exact Int.ofNat_nonneg _) (by rw [hn]; exact hlen)

/-- Witness of C14: an episode started by `Init(1, 2, 3)` with the samples 1, -2
and then 3. -/
theorem episode_counters_witness :
    ((∃ Kp Ki Kd, Init PID.construct 1 2 3 = Init PID.construct Kp Ki Kd) ∨
      TwiddleUpdate PID.construct = some (Init PID.construct 1 2 3)) ∧
    (([1, -2] : List ℚ).length : Int) < INT_MAX ∧
    0 ≤ (feed (Init PID.construct 1 2 3) [1, -2]).err ∧
    0 ≤ (UpdateError (feed (Init PID.construct 1 2 3) [1, -2]) 3).err ∧
    (feed (Init PID.construct 1 2 3) [1, -2]).err ≤
      (UpdateError (feed (Init PID.construct 1 2 3) [1, -2]) 3).err ∧
    (UpdateError (feed (Init PID.construct 1 2 3) [1, -2]) 3).n =
      (feed (Init PID.construct 1 2 3) [1, -2]).n + 1 ∧
    (feed (Init PID.construct 1 2 3) [1, -2]).n = (([1, -2] : List ℚ).length : Int) := by
  have hs : (∃ Kp Ki Kd, Init PID.construct 1 2 3 = Init PID.construct Kp Ki Kd) ∨
      TwiddleUpdate PID.construct = some (Init PID.construct 1 2 3) :=
    Or.inl ⟨1, 2, 3, rfl⟩
  have hl : (([1, -2] : List ℚ).length : Int) < INT_MAX := by decide
  obtain ⟨e1, e2, e3, e4⟩ :=
    episode_counters PID.construct (Init PID.construct 1 2 3) [1, -2] 3 hs
  exact ⟨hs, hl, e1, e2, e3, (e4 hl).1, (e4 hl).2⟩

/-- C15, at the input where the code departs from it: after `TwiddleInit` (which
ends with `TwiddleUpdate`) and exactly `PID_STARTUP` samples, the guard
`n < PID_STARTUP` of `TotalError` is false, so the division is evaluated, and
its divisor `n - PID_STARTUP` is zero, not strictly positive. -/
theorem totalError_zero_divisor :
    ∃ s, TwiddleInit PID.construct = some s ∧
      ¬ ((feed s (List.replicate 300 1)).n < PID_STARTUP) ∧
      (feed s (List.replicate 300 1)).n - PID_STARTUP = 0 ∧
      ¬ (0 < (feed s (List.replicate 300 1)).n - PID_STARTUP) ∧
      TotalError (feed s (List.replicate 300 1)) = none := by
  refine ⟨_, TwiddleInit_eq PID.construct, ?_, ?_, ?_, ?_⟩
  · rw [feed_replicate_startup_n _ 1 rfl]
    decide
  · rw [feed_replicate_startup_n _ 1 rfl]
    decide
  · rw [feed_replicate_startup_n _ 1 rfl]
    decide
  · exact TotalError_at_startup _ _ rfl (replicate_startup_length 1)

/-! ## The throttle command of `main.cpp` -/

theorem Guess_guessing (g : ℚ) : (Guess (guessing g)).1 = g := by
  simp [Guess, guessing, PID.construct]

/-- C18, evaluated on the code: for a guess clamped to 1 the throttle is
`-0.2 + (1 + 1)/2 = 0.8`, not 1.3; for a guess of 0 it is 0.3; for a guess
clamped to -1 it is `-0.2`, not `-0.7`; and every throttle the line computes
lies in `[-0.2, 0.8]`. -/
theorem throttle_range :
    throttle (guessing 1) = 8 / 10 ∧ throttle (guessing 5) = 8 / 10 ∧
    throttle (guessing 0) = 3 / 10 ∧
    throttle (guessing (-1)) = -(2 / 10) ∧ throttle (guessing (-5)) = -(2 / 10) ∧
    (∀ s : PID, -(2 / 10) ≤ throttle s ∧ throttle s ≤ 8 / 10) := by
  refine ⟨?_, ?_, ?_, ?_, ?_, ?_⟩
  · unfold throttle; rw [Guess_guessing]; norm_num
  · unfold throttle; rw [Guess_guessing]; norm_num
  · unfold throttle; rw [Guess_guessing]; norm_num
  · unfold throttle; rw [Guess_guessing]; norm_num
  · unfold throttle; rw [Guess_guessing]; norm_num
  · intro s
    unfold throttle
    have h1 : (-1 : ℚ) ≤ max (-1) (min 1 (Guess s).1) := le_max_left _ _
    have h2 : max (-1) (min 1 (Guess s).1) ≤ (1 : ℚ) :=
      max_le (by norm_num) (min_le_left _ _)
    constructor <;> linarith

/-! ## The shape of every `TwiddleStep` -/

theorem vecGet_set_id {v : List ℚ} {i : Int} {x : ℚ} (h : vecGet v i = some x) :
    v.set i.toNat x = v := by
  obtain ⟨hi, hlt⟩ := vecGet_inRange h
  unfold vecGet at h
  rw [if_pos hi] at h
  apply List.ext_getElem?
  intro k
  by_cases hk : i.toNat = k
  · subst hk
    rw [List.getElem?_set_self hlt, h]
  · rw [List.getElem?_set_ne hk]

theorem vecGet_mem {v : List ℚ} {i : Int} {x : ℚ} (h : vecGet v i = some x) : x ∈ v := by
  obtain ⟨hi, -⟩ := vecGet_inRange h
  unfold vecGet at h
  rw [if_pos hi] at h
  obtain ⟨hlt, hx⟩ := List.getElem?_eq_some_iff.mp h
  rw [← hx]
  exact List.getElem_mem hlt

/-- Neither going up nor going down (line 157 fails too): nothing happens. -/
theorem trial_other {s : PID} {r : ℚ} {d : ℚ} (hd : vecGet s.dp s.t_index = some d)
    (hd0 : d ≠ 0) (hb : s.best_err ≠ -1) (hnot : ¬ Improves s r)
    (hup : ¬ s.t_state = T_UP) (hdown : ¬ s.t_state = T_DOWN) :
    TwiddleStep.trial s r = some (s, false) := by
  unfold TwiddleStep.trial
  rw [hd]
  dsimp only
  rw [if_neg hd0, if_neg hb, if_neg (show ¬ (r < s.best_err ∧ s.n > PID_STARTUP) from hnot),
    if_neg hup, if_neg hdown]

/-- Every outcome of the first half of `TwiddleStep`: the active step becomes
`D`, one of `d`, `1.1 d`, `0.9 d`; the active gain becomes some `V`; `best_err`
stays or becomes the score (first time through, or accepted improvement);
`t_state` stays or becomes `T_UP` or `T_DOWN`; nothing else changes. -/
theorem trial_shape {s : PID} (r : ℚ) {d v : ℚ} (hd : vecGet s.dp s.t_index = some d)
    (hv : vecGet s.p s.t_index = some v) :
    ∃ (B : ℚ) (S : Int) (D V : ℚ) (b : Bool),
      (D = d ∨ D = d * (11 / 10) ∨ D = d * (9 / 10)) ∧
      (B = s.best_err ∨
        (B = r ∧ d ≠ 0 ∧ (s.best_err = -1 ∨ (s.best_err ≠ -1 ∧ Improves s r)))) ∧
      (S = s.t_state ∨ S = T_UP ∨ S = T_DOWN) ∧
      TwiddleStep.trial s r =
        some ({ s with best_err := B, t_state := S,
                       dp := s.dp.set s.t_index.toNat D,
                       p := s.p.set s.t_index.toNat V }, b) := by
  by_cases hd0 : d = 0
  · refine ⟨s.best_err, s.t_state, d, v, true, Or.inl rfl, Or.inl rfl, Or.inl rfl, ?_⟩
    rw [vecGet_set_id hd, vecGet_set_id hv]
    subst hd0
    exact trial_frozen r hd
  by_cases hb : s.best_err = -1
  · refine ⟨r, T_UP, d, v + d, false, Or.inl rfl, Or.inr ⟨rfl, hd0, Or.inl hb⟩,
      Or.inr (Or.inl rfl), ?_⟩
    rw [vecGet_set_id hd]
    exact trial_first r hd hd0 hb hv
  by_cases himp : Improves s r
  · have h := trial_improve hd hd0 hb himp hv
    by_cases hres : |d * (11 / 10)| < MIN_RESOLUTION
    · rw [if_pos hres] at h
      refine ⟨r, s.t_state, d * (11 / 10), v, true, Or.inr (Or.inl rfl),
        Or.inr ⟨rfl, hd0, Or.inr ⟨hb, himp⟩⟩, Or.inl rfl, ?_⟩
      rw [vecGet_set_id hv]
      exact h
    · rw [if_neg hres] at h
      exact ⟨r, s.t_state, d * (11 / 10), _, false, Or.inr (Or.inl rfl),
        Or.inr ⟨rfl, hd0, Or.inr ⟨hb, himp⟩⟩, Or.inl rfl, h⟩
  by_cases hup : s.t_state = T_UP
  · refine ⟨s.best_err, T_DOWN, d, v - 2 * d, false, Or.inl rfl, Or.inl rfl,
      Or.inr (Or.inr rfl), ?_⟩
    rw [vecGet_set_id hd]
    exact trial_up hd hd0 hb himp hup hv
  by_cases hdown : s.t_state = T_DOWN
  · have h := trial_down hd hd0 hb himp hdown hv
    by_cases hres : |d * (9 / 10)| < MIN_RESOLUTION
    · rw [if_pos hres] at h
      exact ⟨s.best_err, s.t_state, d * (9 / 10), v + d, true, Or.inr (Or.inr rfl),
        Or.inl rfl, Or.inl rfl, h⟩
    · rw [if_neg hres, List.set_set] at h
      exact ⟨s.best_err, T_UP, d * (9 / 10), _, false, Or.inr (Or.inr rfl),
        Or.inl rfl, Or.inr (Or.inl rfl), h⟩
  · refine ⟨s.best_err, s.t_state, d, v, false, Or.inl rfl, Or.inl rfl, Or.inl rfl, ?_⟩
    rw [vecGet_set_id hd, vecGet_set_id hv]
    exact trial_other hd hd0 hb himp hup hdown

/-- Every outcome of `TwiddleStep` on a well-formed tuner state: the call
returns; the active step `d` becomes `D`, one of `d`, `1.1 d`, `0.9 d`, and no
other step changes; `best_err` stays or becomes the score; either `t_index`
stays and only the active gain changes, or `t_index` moves to the next index,
`t_state` is `T_UP`, and only the active gain and the gain at the next index
change; the controller members are untouched. -/
theorem TwiddleStep_effect {s : PID} (r : ℚ) (hwf : WellFormed s) :
    ∃ (t : PID) (d D : ℚ),
      TwiddleStep s r = some t ∧ vecGet s.dp s.t_index = some d ∧
      (D = d ∨ D = d * (11 / 10) ∨ D = d * (9 / 10)) ∧
      t.dp = s.dp.set s.t_index.toNat D ∧
      (t.best_err = s.best_err ∨
        (t.best_err = r ∧ d ≠ 0 ∧ (s.best_err = -1 ∨ (s.best_err ≠ -1 ∧ Improves s r)))) ∧
      ((t.t_index = s.t_index ∧
          (t.t_state = s.t_state ∨ t.t_state = T_UP ∨ t.t_state = T_DOWN) ∧
          ∃ V, t.p = s.p.set s.t_index.toNat V) ∨
        (t.t_index = (s.t_index + 1) % 3 ∧ t.t_state = T_UP ∧
          ∃ V x, t.p = (s.p.set s.t_index.toNat V).set ((s.t_index + 1) % 3).toNat x)) ∧
      t.Kp = s.Kp ∧ t.Ki = s.Ki ∧ t.Kd = s.Kd ∧ t.n = s.n ∧ t.err = s.err ∧
      t.p_error = s.p_error ∧ t.i_error = s.i_error ∧ t.d_error = s.d_error := by
  obtain ⟨hp, hdp, h0, h3⟩ := hwf
  obtain ⟨hmod, hj0, hj3, -⟩ := next_index h0 h3
  obtain ⟨d, hd⟩ := vecGet_of_length hdp h0 h3
  obtain ⟨v, hv⟩ := vecGet_of_length hp h0 h3
  obtain ⟨B, S, D, V, b, hD, hB, hS, htrial⟩ := trial_shape r hd hv
  cases b with
  | false =>
    exact ⟨_, d, D, TwiddleStep_stay htrial, hd, hD, rfl, hB, Or.inl ⟨rfl, hS, V, rfl⟩,
      rfl, rfl, rfl, rfl, rfl, rfl, rfl, rfl⟩
  | true =>
    obtain ⟨g, hg⟩ := vecGet_of_length
      (v := s.p.set s.t_index.toNat V) (by simpa using hp) hj0 hj3
    obtain ⟨e, he⟩ := vecGet_of_length
      (v := s.dp.set s.t_index.toNat D) (by simpa using hdp) hj0 hj3
    rw [← hmod] at hg he
    have hnext := next_eq
      (s := { s with best_err := B, t_state := S, dp := s.dp.set s.t_index.toNat D,
                     p := s.p.set s.t_index.toNat V }) hg he
    have hstep := TwiddleStep_advance htrial
    rw [hnext] at hstep
    refine ⟨_, d, D, hstep, hd, hD, rfl, hB, Or.inr ⟨hmod, rfl, V, g + e, ?_⟩,
      rfl, rfl, rfl, rfl, rfl, rfl, rfl, rfl⟩
    show (s.p.set s.t_index.toNat V).set (Int.tmod (s.t_index + 1) 3).toNat (g + e) = _
    rw [hmod]

/-- A `TwiddleStep` on a well-formed tuner state ends in a well-formed one. -/
theorem TwiddleStep_wellFormed {s t : PID} {r : ℚ} (hwf : WellFormed s)
    (h : TwiddleStep s r = some t) : WellFormed t := by
  obtain ⟨t1, d, D, h1, -, -, hdp, -, hidx, -⟩ := TwiddleStep_effect r hwf
  rw [h] at h1
  cases h1
  obtain ⟨hp, hdpl, h0, h3⟩ := hwf
  obtain ⟨-, hj0, hj3, -⟩ := next_index h0 h3
  rcases hidx with ⟨hi, -, V, hV⟩ | ⟨hi, -, V, x, hV⟩
  · refine ⟨?_, ?_, ?_, ?_⟩
    · rw [hV]; simpa using hp
    · rw [hdp]; simpa using hdpl
    · rw [hi]; exact h0
    · rw [hi]; exact h3
  · refine ⟨?_, ?_, ?_, ?_⟩
    · rw [hV]; simpa using hp
    · rw [hdp]; simpa using hdpl
    · rw [hi]; exact hj0
    · rw [hi]; exact hj3

/-! ## Frame and invariants of the tuner -/

/-- C20: on a well-formed tuner state `TwiddleStep` returns and leaves `Kp`,
`Ki`, `Kd`, `n`, `err`, `p_error`, `i_error` and `d_error` unchanged; no entry
of `dp` other than the one at the active index on entry changes; `t_index`
either stays or moves to the next index, and no entry of `p` changes other than
the one at the active index on entry and the one at `t_index` on exit. -/
theorem twiddleStep_frame (s : PID) (r : ℚ) (hwf : WellFormed s) :
    ∃ t, TwiddleStep s r = some t ∧
      t.Kp = s.Kp ∧ t.Ki = s.Ki ∧ t.Kd = s.Kd ∧ t.n = s.n ∧ t.err = s.err ∧
      t.p_error = s.p_error ∧ t.i_error = s.i_error ∧ t.d_error = s.d_error ∧
      (∀ k, k ≠ s.t_index → vecGet t.dp k = vecGet s.dp k) ∧
      (t.t_index = s.t_index ∨ t.t_index = (s.t_index + 1) % 3) ∧
      (∀ k, k ≠ s.t_index → k ≠ t.t_index → vecGet t.p k = vecGet s.p k) := by
  obtain ⟨t, d, D, h1, -, -, hdp, -, hidx, c1, c2, c3, c4, c5, c6, c7, c8⟩ :=
    TwiddleStep_effect r hwf
  obtain ⟨-, -, h0, h3⟩ := hwf
  obtain ⟨-, hj0, -, -⟩ := next_index h0 h3
  refine ⟨t, h1, c1, c2, c3, c4, c5, c6, c7, c8, ?_, ?_, ?_⟩
  · intro k hk
    rw [hdp]
    exact vecGet_set_ne h0 hk _
  · rcases hidx with ⟨hi, -⟩ | ⟨hi, -⟩
    · exact Or.inl hi
    · exact Or.inr hi
  · intro k hk hk2
    rcases hidx with ⟨hi, -, V, hV⟩ | ⟨hi, -, V, x, hV⟩
    · rw [hV]
      exact vecGet_set_ne h0 hk _
    · rw [hV, vecGet_set_ne hj0 (by rw [← hi]; exact hk2), vecGet_set_ne h0 hk]

/-- Witness of C20: the scenario state (`p[0] = 2.1`, `dp[0] = 1.1`, best 8,
going up, `n = 301`) and the score 9. -/
theorem twiddleStep_frame_witness :
    WellFormed scenarioAfterSecond ∧
    ∃ t, TwiddleStep scenarioAfterSecond 9 = some t ∧
      t.Kp = scenarioAfterSecond.Kp ∧ t.Ki = scenarioAfterSecond.Ki ∧
      t.Kd = scenarioAfterSecond.Kd ∧ t.n = scenarioAfterSecond.n ∧
      t.err = scenarioAfterSecond.err ∧ t.p_error = scenarioAfterSecond.p_error ∧
      t.i_error = scenarioAfterSecond.i_error ∧ t.d_error = scenarioAfterSecond.d_error ∧
      (∀ k, k ≠ scenarioAfterSecond.t_index →
        vecGet t.dp k = vecGet scenarioAfterSecond.dp k) ∧
      (t.t_index = scenarioAfterSecond.t_index ∨
        t.t_index = (scenarioAfterSecond.t_index + 1) % 3) ∧
      (∀ k, k ≠ scenarioAfterSecond.t_index → k ≠ t.t_index →
        vecGet t.p k = vecGet scenarioAfterSecond.p k) :=
  ⟨⟨rfl, rfl, by decide, by decide⟩,
    twiddleStep_frame scenarioAfterSecond 9 ⟨rfl, rfl, by decide, by decide⟩⟩

/-- `UpdateError` does not touch the Twiddle members. -/
theorem UpdateError_sameTuner (s : PID) (x : ℚ) : SameTuner (UpdateError s x) s := by
  unfold UpdateError Guess
  dsimp only
  split <;> exact ⟨rfl, rfl, rfl, rfl, rfl⟩

/-- `Init` does not touch the Twiddle members. -/
theorem Init_sameTuner (s : PID) (Kp Ki Kd : ℚ) : SameTuner (Init s Kp Ki Kd) s :=
  ⟨rfl, rfl, rfl, rfl, rfl⟩

/-- `TwiddleUpdate` returns on three gains and does not touch the Twiddle
members. -/
theorem TwiddleUpdate_sameTuner {s : PID} (hlen : s.p.length = 3)
    (hdlen : s.dp.length = 3) :
    ∃ t, TwiddleUpdate s = some t ∧ SameTuner t s := by
  obtain ⟨a, ha⟩ := vecGet_of_le_length (v := s.p) (k := 0) (by omega)
  obtain ⟨b, hb⟩ := vecGet_of_le_length (v := s.p) (k := 1) (by omega)
  obtain ⟨c, hc⟩ := vecGet_of_le_length (v := s.p) (k := 2) (by omega)
  obtain ⟨x, hx⟩ := vecGet_of_le_length (v := s.dp) (k := 0) (by omega)
  obtain ⟨y, hy⟩ := vecGet_of_le_length (v := s.dp) (k := 1) (by omega)
  obtain ⟨z, hz⟩ := vecGet_of_le_length (v := s.dp) (k := 2) (by omega)
  exact ⟨_, TwiddleUpdate_eq ha hb hc hx hy hz, rfl, rfl, rfl, rfl, rfl⟩

theorem TunerInv_of_sameTuner {a b : PID} (h : SameTuner a b) (hb : TunerInv b) :
    TunerInv a := by
  obtain ⟨hp, hdp, -, hi, hs⟩ := h
  obtain ⟨⟨w1, w2, w3, w4⟩, hst, hnn⟩ := hb
  refine ⟨⟨?_, ?_, ?_, ?_⟩, ?_, ?_⟩
  · rw [hp]; exact w1
  · rw [hdp]; exact w2
  · rw [hi]; exact w3
  · rw [hi]; exact w4
  · rw [hs]; exact hst
  · rw [hdp]; exact hnn

/-- `TwiddleStep` keeps the tuner-state predicate. -/
theorem TwiddleStep_tunerInv {s : PID} (r : ℚ) (h : TunerInv s) :
    ∃ t, TwiddleStep s r = some t ∧ TunerInv t := by
  obtain ⟨hwf, hst, hnn⟩ := h
  obtain ⟨t, d, D, h1, hd, hD, hdp, -, hidx, -⟩ := TwiddleStep_effect r hwf
  refine ⟨t, h1, TwiddleStep_wellFormed hwf h1, ?_, ?_⟩
  · rcases hidx with ⟨-, hS, -⟩ | ⟨-, hS, -⟩
    · rcases hS with hS | hS | hS
      · rw [hS]; exact hst
      · exact Or.inl hS
      · exact Or.inr hS
    · exact Or.inl hS
  · have hd0 : 0 ≤ d := hnn d (vecGet_mem hd)
    have hD0 : 0 ≤ D := by
      rcases hD with rfl | rfl | rfl
      · exact hd0
      · positivity
      · positivity
    intro x hx
    rw [hdp] at hx
    rcases List.mem_or_eq_of_mem_set hx with hx | rfl
    · exact hnn x hx
    · exact hD0

/-- C17: the predicate "`t_index` is 0, 1 or 2, `t_state` is `T_UP` or `T_DOWN`,
and each of the three steps is non-negative" holds after `TwiddleInit` from any
state and is kept by `UpdateError`, `Init`, `TwiddleUpdate` and `TwiddleStep`
with any score, each of which returns on such a state. -/
theorem tunerInv_preserved :
    (∀ s0 : PID, ∃ t, TwiddleInit s0 = some t ∧ TunerInv t) ∧
    (∀ (s : PID) (x : ℚ), TunerInv s → TunerInv (UpdateError s x)) ∧
    (∀ (s : PID) (Kp Ki Kd : ℚ), TunerInv s → TunerInv (Init s Kp Ki Kd)) ∧
    (∀ s : PID, TunerInv s → ∃ t, TwiddleUpdate s = some t ∧ TunerInv t) ∧
    (∀ (s : PID) (r : ℚ), TunerInv s → ∃ t, TwiddleStep s r = some t ∧ TunerInv t) := by
  refine ⟨?_, ?_, ?_, ?_, ?_⟩
  · intro s0
    refine ⟨_, TwiddleInit_eq s0, ⟨rfl, rfl, by decide, by decide⟩, Or.inl rfl, ?_⟩
    intro x hx
    have hx1 : x ∈ ([1, 1, 1] : List ℚ) := hx
    simp only [List.mem_cons, List.mem_singleton, List.not_mem_nil, or_false, or_self]
      at hx1
    rw [hx1]
    exact zero_le_one
  · intro s x h
    exact TunerInv_of_sameTuner (UpdateError_sameTuner s x) h
  · intro s Kp Ki Kd h
    exact TunerInv_of_sameTuner (Init_sameTuner s Kp Ki Kd) h
  · intro s h
    obtain ⟨t, h1, h2⟩ := TwiddleUpdate_sameTuner h.1.1 h.1.2.1
    exact ⟨t, h1, TunerInv_of_sameTuner h2 h⟩
  · intro s r h
    exact TwiddleStep_tunerInv r h

/-- The scenario state satisfies the tuner-state predicate. -/
theorem scenarioAfterSecond_tunerInv : TunerInv scenarioAfterSecond := by
  refine ⟨⟨rfl, rfl, by decide, by decide⟩, Or.inl rfl, ?_⟩
  intro x hx
  have hx1 : x ∈ ([11 / 10, 1, 1] : List ℚ) := hx
  simp only [List.mem_cons, List.mem_singleton, List.not_mem_nil, or_false] at hx1
  rcases hx1 with rfl | rfl | rfl <;> norm_num

/-- Witness of C17: the scenario state (`p[0] = 2.1`, `dp[0] = 1.1`, going up)
under each of the four operations. -/
theorem tunerInv_preserved_witness :
    TunerInv scenarioAfterSecond ∧
    TunerInv (UpdateError scenarioAfterSecond 1) ∧
    TunerInv (Init scenarioAfterSecond 1 2 3) ∧
    (∃ t, TwiddleUpdate scenarioAfterSecond = some t ∧ TunerInv t) ∧
    (∃ t, TwiddleStep scenarioAfterSecond 9 = some t ∧ TunerInv t) :=
  ⟨scenarioAfterSecond_tunerInv,
    tunerInv_preserved.2.1 scenarioAfterSecond 1 scenarioAfterSecond_tunerInv,
    tunerInv_preserved.2.2.1 scenarioAfterSecond 1 2 3 scenarioAfterSecond_tunerInv,
    tunerInv_preserved.2.2.2.1 scenarioAfterSecond scenarioAfterSecond_tunerInv,
    tunerInv_preserved.2.2.2.2 scenarioAfterSecond 9 scenarioAfterSecond_tunerInv⟩

/-! ## Strictly positive steps -/

theorem wellFormed_of_sameTuner {a b : PID} (h : SameTuner a b) (hb : WellFormed b) :
    WellFormed a := by
  obtain ⟨hp, hdp, -, hi, -⟩ := h
  obtain ⟨w1, w2, w3, w4⟩ := hb
  refine ⟨?_, ?_, ?_, ?_⟩
  · rw [hp]; exact w1
  · rw [hdp]; exact w2
  · rw [hi]; exact w3
  · rw [hi]; exact w4

/-- `TwiddleStep` keeps three strictly positive steps strictly positive. -/
theorem TwiddleStep_positive {s : PID} (r : ℚ) (hwf : WellFormed s)
    (hpos : ∀ x ∈ s.dp, 0 < x) :
    ∃ t, TwiddleStep s r = some t ∧ WellFormed t ∧ ∀ x ∈ t.dp, 0 < x := by
  obtain ⟨t, d, D, h1, hd, hD, hdp, -⟩ := TwiddleStep_effect r hwf
  refine ⟨t, h1, TwiddleStep_wellFormed hwf h1, ?_⟩
  have hd0 : 0 < d := hpos d (vecGet_mem hd)
  have hD0 : 0 < D := by
    rcases hD with rfl | rfl | rfl
    · exact hd0
    · positivity
    · positivity
  intro x hx
  rw [hdp] at hx
  rcases List.mem_or_eq_of_mem_set hx with hx | rfl
  · exact hpos x hx
  · exact hD0

/-- Every call keeps a well-formed tuner with strictly positive steps. -/
theorem exec_positive {s : PID} (c : Call) (hwf : WellFormed s)
    (hpos : ∀ x ∈ s.dp, 0 < x) :
    ∃ t, c.exec s = some t ∧ WellFormed t ∧ ∀ x ∈ t.dp, 0 < x := by
  cases c with
  | updateError cte =>
    have h := UpdateError_sameTuner s cte
    exact ⟨_, rfl, wellFormed_of_sameTuner h hwf, by rw [h.2.1]; exact hpos⟩
  | init Kp Ki Kd =>
    exact ⟨_, rfl, wellFormed_of_sameTuner (Init_sameTuner s Kp Ki Kd) hwf, hpos⟩
  | twiddleUpdate =>
    obtain ⟨t, h1, h2⟩ := TwiddleUpdate_sameTuner hwf.1 hwf.2.1
    exact ⟨t, h1, wellFormed_of_sameTuner h2 hwf, by rw [h2.2.1]; exact hpos⟩
  | twiddleStep run_err => exact TwiddleStep_positive run_err hwf hpos

theorem runCalls_positive (cs : List Call) :
    ∀ s : PID, WellFormed s → (∀ x ∈ s.dp, 0 < x) →
      ∃ t, runCalls s cs = some t ∧ WellFormed t ∧ ∀ x ∈ t.dp, 0 < x := by
  induction cs with
  | nil => intro s hwf hpos; exact ⟨s, rfl, hwf, hpos⟩
  | cons c cs ih =>
    intro s hwf hpos
    obtain ⟨t, h1, h2, h3⟩ := exec_positive c hwf hpos
    obtain ⟨u, k1, k2, k3⟩ := ih t h2 h3
    refine ⟨u, ?_, k2, k3⟩
    show (match c.exec s with
      | none => none
      | some t => runCalls t cs) = some u
    rw [h1]
    exact k1

/-- C19: from any state, `TwiddleInit` followed by any sequence of `UpdateError`,
`Init`, `TwiddleUpdate` and `TwiddleStep` calls returns a state with three steps,
all strictly positive; in particular the active step `dp[t_index]` is not zero
there, so a `TwiddleStep` called in that state does not take the branch of a
zero step. -/
theorem steps_stay_positive (s0 : PID) (cs : List Call) :
    ∃ s t, TwiddleInit s0 = some s ∧ runCalls s cs = some t ∧
      t.dp.length = 3 ∧ (∀ x ∈ t.dp, 0 < x) ∧
      ∃ d, vecGet t.dp t.t_index = some d ∧ 0 < d ∧ d ≠ 0 := by
  have hwf0 : WellFormed
      { s0 with p := [0, 0, 0], dp := [1, 1, 1], t_index := 0, t_state := T_UP,
                best_err := -1, Kp := 0, Kd := 0, Ki := 0, n := 0, err := 0,
                p_error := 0, i_error := 0, d_error := 0 } :=
    ⟨rfl, rfl, by decide, by decide⟩
  have hpos0 : ∀ x ∈ ([1, 1, 1] : List ℚ), 0 < x := by
    intro x hx
    simp only [List.mem_cons, List.mem_singleton, List.not_mem_nil, or_false, or_self]
      at hx
    rw [hx]
    exact zero_lt_one
  obtain ⟨t, h1, h2, h3⟩ := runCalls_positive cs _ hwf0 hpos0
  obtain ⟨d, hd⟩ := vecGet_of_length h2.2.1 h2.2.2.1 h2.2.2.2
  have hd0 : 0 < d := h3 d (vecGet_mem hd)
  exact ⟨_, t, TwiddleInit_eq s0, h1, h2.2.1, h3, d, hd, hd0, ne_of_gt hd0⟩

/-! ## The sentinel of `best_err` -/

/-- As long as neither `best_err` nor the score is the sentinel `-1`, a
`TwiddleStep` does not raise `best_err` and does not make it the sentinel. -/
theorem best_err_monotone {s : PID} {r : ℚ} (hwf : WellFormed s) (hb : s.best_err ≠ -1)
    (hr : r ≠ -1) :
    ∃ t, TwiddleStep s r = some t ∧ t.best_err ≤ s.best_err ∧ t.best_err ≠ -1 := by
  obtain ⟨t, d, D, h1, -, -, -, hB, -⟩ := TwiddleStep_effect r hwf
  refine ⟨t, h1, ?_, ?_⟩
  · rcases hB with hB | ⟨hB, -, h | ⟨-, h⟩⟩
    · exact le_of_eq hB
    · exact absurd h hb
    · rw [hB]; exact le_of_lt h.1
  · rcases hB with hB | ⟨hB, -⟩
    · rw [hB]; exact hb
    · rw [hB]; exact hr

/-- C16, at the input where the code departs from it: after `TwiddleInit`, the
scores `-1` and then `5`.  The first call stores the score `-1`, which is the
"unset" sentinel, so the second call takes the first-time branch again (`p[0]`
is perturbed a second time, to 2) and raises `best_err` from `-1` to `5`. -/
theorem best_err_sentinel_collision :
    ∃ s t1 t2, TwiddleInit PID.construct = some s ∧ TwiddleStep s (-1) = some t1 ∧
      TwiddleStep t1 5 = some t2 ∧ t1.best_err = -1 ∧ t1.p = [1, 0, 0] ∧
      t2.best_err = 5 ∧ t2.p = [2, 0, 0] ∧ ¬ (t2.best_err ≤ t1.best_err) := by
  have key : ∀ (s : PID) (r v : ℚ), s.dp = [1, 1, 1] → s.p = [v, 0, 0] → s.t_index = 0 →
      s.best_err = -1 →
      ∃ t, TwiddleStep s r = some t ∧ t.best_err = r ∧ t.p = [v + 1, 0, 0] ∧
        t.dp = [1, 1, 1] ∧ t.t_index = 0 := by
    intro s r v hdp hp hi hb
    have hd : vecGet s.dp s.t_index = some 1 := by rw [hdp, hi]; rfl
    have hv : vecGet s.p s.t_index = some v := by rw [hp, hi]; rfl
    refine ⟨_, TwiddleStep_stay (trial_first r hd one_ne_zero hb hv), rfl, ?_, hdp, hi⟩
    show s.p.set s.t_index.toNat (v + 1) = [v + 1, 0, 0]
    rw [hp, hi]
    rfl
  obtain ⟨s, hs, e1, e2, e3, e4⟩ : ∃ s, TwiddleInit PID.construct = some s ∧
      s.dp = [1, 1, 1] ∧ s.p = [0, 0, 0] ∧ s.t_index = 0 ∧ s.best_err = -1 :=
    ⟨_, TwiddleInit_eq PID.construct, rfl, rfl, rfl, rfl⟩
  obtain ⟨t1, h1, b1, p1, d1, i1⟩ := key s (-1) 0 e1 e2 e3 e4
  rw [zero_add] at p1
  obtain ⟨t2, h2, b2, p2, -, -⟩ := key t1 5 1 d1 p1 i1 b1
  rw [show (1 : ℚ) + 1 = 2 by norm_num] at p2
  refine ⟨s, t1, t2, hs, h1, h2, b1, p1, b2, p2, ?_⟩
  rw [b1, b2]
  norm_num

/-! ## Double arithmetic: evaluating `rnd64` -/

theorem rnd64_zero : rnd64 0 = 0 := by
  unfold rnd64
  rw [if_pos rfl]

theorem rounded_updateError_id (s : PID) (x : ℚ) :
    Rounded.UpdateError id s x = UpdateError s x := rfl

theorem rounded_trial_id (s : PID) (r : ℚ) :
    Rounded.TwiddleStep.trial id s r = TwiddleStep.trial s r := rfl

theorem rounded_next_id (s : PID) : Rounded.TwiddleStep.next id s = TwiddleStep.next s := rfl

theorem rounded_twiddleStep_id (s : PID) (r : ℚ) :
    Rounded.TwiddleStep id s r = TwiddleStep s r := rfl

theorem rounded_totalError_id (s : PID) : Rounded.TotalError id s = TotalError s := by
  unfold Rounded.TotalError TotalError
  split
  · rfl
  · simp

/-! ## Double arithmetic: the controller -/

theorem wrapInt_succ_max : wrapInt (INT_MAX + 1) = -2147483648 := by decide

/-- After `INT_MAX` samples of a fresh episode the counter is at `INT_MAX`. -/
theorem feed_replicate_max (s : PID) (x : ℚ) (h0 : s.n = 0) :
    (feed s (List.replicate 2147483647 x)).n = INT_MAX := by
  have hlen : ((List.replicate 2147483647 x).length : Int) = INT_MAX := by
    rw [List.length_replicate]; rfl
  rw [feed_n _ s (by omega) (by rw [h0, hlen]; decide), h0, hlen, zero_add]

/-- C14 as stated, in `int`: after `TwiddleInit` and `INT_MAX` samples the
counter `n` is `INT_MAX`, and the next `UpdateError` takes it to `-2^31`, not
to `n + 1`. -/
theorem episode_counter_wraps :
    ∃ s, TwiddleInit PID.construct = some s ∧
      (feed s (List.replicate 2147483647 1)).n = INT_MAX ∧
      (UpdateError (feed s (List.replicate 2147483647 1)) 1).n = -2147483648 ∧
      (UpdateError (feed s (List.replicate 2147483647 1)) 1).n ≠
        (feed s (List.replicate 2147483647 1)).n + 1 := by
  refine ⟨_, TwiddleInit_eq PID.construct, feed_replicate_max _ 1 rfl, ?_, ?_⟩
  · rw [UpdateError_n, feed_replicate_max _ 1 rfl, wrapInt_succ_max]
  · rw [UpdateError_n, feed_replicate_max _ 1 rfl, wrapInt_succ_max]
    decide

end PIDControl
